import Mathlib

/-!
Verification of the simulation core of a 2D lunar-lander game
(source file: src/lunarlander-o3.py).

The Python source is shallowly embedded below.  Python floats are modelled
as rationals (ℚ), Python ints as ℤ.  Operations that can raise in Python
(list indexing, division by zero, `random.randint` with an empty range)
return `Option`, with `none` standing for the raised exception.
`random.randint(a, b)` is modelled by `randint?` driven by an arbitrary
stream `rng : ℕ → ℕ` of raw draws, so that every theorem quantifying over
`rng` covers every possible random source.  The trigonometric functions
`math.sin (math.radians a)` and `math.cos (math.radians a)` used by
`Lander.update` are modelled by oracle parameters `sinD cosD : ℚ → ℚ`;
every theorem about `Lander.update` is proved for all such oracles.
-/

/- Batteries marks the rational-number operations `@[irreducible]`; for
concrete evaluation of the embedded program by `decide`, restore the
default reducibility inside this file. -/
attribute [local semireducible] Rat.add Rat.mul Rat.sub Rat.inv Rat.ofScientific

/-- Screen width, from `WIDTH, HEIGHT = 1200, 800`. -/
def WIDTH : ℤ := 1200

/-- Screen height, from `WIDTH, HEIGHT = 1200, 800`. -/
def HEIGHT : ℤ := 800

/-- Python `int(q)` on a float: truncation toward zero. -/
def pyInt (q : ℚ) : ℤ := if q < 0 then ⌈q⌉ else ⌊q⌋

/-- Python `random.randint(a, b)`: inclusive range, `ValueError` (none) when
`b < a`; the raw draw `v` is reduced modulo the range size. -/
def randint? (a b : ℤ) (v : ℕ) : Option ℤ :=
  if b < a then none else some (a + (v : ℤ) % (b - a + 1))

/-- Python `range(a, b, s)` for a positive step `s`. -/
def pyRange (a b s : ℤ) : List ℤ :=
  (List.range (((b - a + s - 1) / s).toNat)).map (fun k : ℕ => a + s * (k : ℤ))

/-- `get_terrain_height(x, terrain_points, step)` from the source:

    if x <= 0: return terrain_points[0][1]
    if x >= WIDTH: return terrain_points[-1][1]
    idx = int(x // step)
    p1 = terrain_points[idx]
    p2 = terrain_points[min(idx+1, len(terrain_points)-1)]
    t = (x - p1[0]) / (p2[0] - p1[0])
    return p1[1] * (1-t) + p2[1] * t

`none` models an `IndexError` (index out of range) or a
`ZeroDivisionError` (`p2[0] - p1[0] == 0`).  The source declares
`step=20` as a default argument; every call site uses 20. -/
def get_terrain_height? (x : ℚ) (terrain_points : List (ℚ × ℚ)) (step : ℚ) : Option ℚ :=
  if x ≤ 0 then terrain_points.head?.map Prod.snd
  else if x ≥ (WIDTH : ℚ) then terrain_points.getLast?.map Prod.snd
  else
    let idx : ℕ := (⌊x / step⌋).toNat
    match terrain_points[idx]?, terrain_points[min (idx + 1) (terrain_points.length - 1)]? with
    | some p1, some p2 =>
        if p2.1 - p1.1 = 0 then none
        else
          let t := (x - p1.1) / (p2.1 - p1.1)
          some (p1.2 * (1 - t) + p2.2 * t)
    | _, _ => none

/-- Three-point average used by `smooth_terrain`. -/
def avg3 (a b c : ℚ) : ℚ := (a + b + c) / 3

/-- Interior pass of `smooth_terrain`: for each interior sample, pair its x
with the average of its own y and its two neighbours' y. -/
def interiorAvgs : List (ℚ × ℚ) → List (ℚ × ℚ)
  | p :: q :: r :: rest => (q.1, avg3 p.2 q.2 r.2) :: interiorAvgs (q :: r :: rest)
  | _ => []

/-- One pass of `smooth_terrain`:

    new_points = [points[0]]
    for i in range(1, len(points)-1):
        avg_y = (points[i-1][1] + points[i][1] + points[i+1][1]) / 3
        new_points.append((points[i][0], avg_y))
    new_points.append(points[-1])

On the empty list Python raises; the source only ever smooths a 61-point
profile, and the `[]` case below is unreachable in context. -/
def smoothOnce : List (ℚ × ℚ) → List (ℚ × ℚ)
  | [] => []
  | p :: rest => p :: (interiorAvgs (p :: rest) ++ [(p :: rest).getLast (List.cons_ne_nil p rest)])

/-- `smooth_terrain(points, iterations)`: iterate the single smoothing pass. -/
def smooth_terrain (ps : List (ℚ × ℚ)) : ℕ → List (ℚ × ℚ)
  | 0 => ps
  | n + 1 => smooth_terrain (smoothOnce ps) n

/-- `LandingZone` from the source.  `pygame.Rect` stores integer
coordinates, hence the ℤ fields; `right = left + width` as in pygame. -/
structure LandingZone where
  left : ℤ
  top : ℤ
  width : ℤ
  height : ℤ
  maxLandingSpeed : ℚ
  label : String
deriving DecidableEq, Repr

/-- `rect.right` of a pygame rectangle. -/
def LandingZone.right (lz : LandingZone) : ℤ := lz.left + lz.width

/-- The `Lander` object: position, velocity, heading, fuel and the
per-instance physical constants set in `Lander.__init__`. -/
structure Lander where
  x : ℚ
  y : ℚ
  vx : ℚ
  vy : ℚ
  angle : ℚ
  fuel : ℚ
  gravity : ℚ
  thrust : ℚ
  fuelConsumptionRate : ℚ
deriving DecidableEq, Repr

/-- `Lander.__init__(gravity)`. -/
def Lander.init (gravity : ℚ) : Lander :=
  { x := 600, y := 100, vx := 0, vy := 0, angle := 0, fuel := 100,
    gravity := gravity, thrust := 1/5, fuelConsumptionRate := 20 }

/-- `Lander.update(dt, thrusting)`:

    self.vy += self.gravity
    if thrusting and self.fuel > 0:
        rad = math.radians(self.angle)
        ax = -self.thrust * math.sin(rad)
        ay = -self.thrust * math.cos(rad)
        self.vx += ax
        self.vy += ay
        self.fuel -= self.fuelConsumptionRate * dt
        if self.fuel < 0:
            self.fuel = 0
    self.x += self.vx
    self.y += self.vy

`sinD a` and `cosD a` model `math.sin (math.radians a)` and
`math.cos (math.radians a)`. -/
def Lander.update (sinD cosD : ℚ → ℚ) (l : Lander) (dt : ℚ) (thrusting : Bool) : Lander :=
  let vy1 := l.vy + l.gravity
  if thrusting ∧ 0 < l.fuel then
    let ax := -l.thrust * sinD l.angle
    let ay := -l.thrust * cosD l.angle
    let vx2 := l.vx + ax
    let vy2 := vy1 + ay
    let fuel2 := l.fuel - l.fuelConsumptionRate * dt
    let fuel3 := if fuel2 < 0 then 0 else fuel2
    { l with vx := vx2, vy := vy2, fuel := fuel3, x := l.x + vx2, y := l.y + vy2 }
  else
    { l with vy := vy1, x := l.x + l.vx, y := l.y + vy1 }

/-- A sequence of frames: fold `Lander.update` over a list of
`(dt, thrusting)` inputs. -/
def Lander.updates (sinD cosD : ℚ → ℚ) (l : Lander) (inputs : List (ℚ × Bool)) : Lander :=
  inputs.foldl (fun s p => s.update sinD cosD p.1 p.2) l

/-- Terminal classification of a frame, from the `game_state` strings. -/
inductive Outcome where
  | inProgress
  | landed
  | crashed
deriving DecidableEq, Repr

/-- The pad-containment scan of the collision block:

    in_zone = None
    for lz in landing_zones:
        if lz.rect.left <= lander.x <= lz.rect.right:
            in_zone = lz
            break
-/
def findZone (zones : List LandingZone) (x : ℚ) : Option LandingZone :=
  zones.find? (fun lz => decide ((lz.left : ℚ) ≤ x) && decide (x ≤ (lz.right : ℚ)))

/-- The landing/crash classification and score delta of a contact frame:

    speed = math.hypot(lander.vx, lander.vy)
    if in_zone and speed <= in_zone.maxLandingSpeed:
        bonus = max(0, int((in_zone.maxLandingSpeed - speed) * 50))
        score += int(lander.fuel) + bonus
        game_state = "landed"
    else:
        game_state = "crashed"

`speed` is passed as a parameter: the source computes it as
`math.hypot(lander.vx, lander.vy)`, and every theorem below holds for all
values of `speed`, in particular for the hypotenuse value. -/
def evalContact (zones : List LandingZone) (x speed fuel : ℚ) : Outcome × ℤ :=
  match findZone zones x with
  | some lz =>
      if speed ≤ lz.maxLandingSpeed then
        (Outcome.landed, pyInt fuel + max 0 (pyInt ((lz.maxLandingSpeed - speed) * 50)))
      else (Outcome.crashed, 0)
  | none => (Outcome.crashed, 0)

/-- The per-frame collision check of the main loop:

    ground_y = get_terrain_height(lander.x, terrain_points)
    lander_bottom = lander.y + 15
    if lander_bottom >= ground_y: <contact evaluation>

Returns the outcome and the score delta of the frame. -/
def frameCollision (terrain : List (ℚ × ℚ)) (zones : List LandingZone)
    (x y speed fuel : ℚ) : Option (Outcome × ℤ) :=
  match get_terrain_height? x terrain 20 with
  | none => none
  | some gy =>
      if y + 15 ≥ gy then some (evalContact zones x speed fuel)
      else some (Outcome.inProgress, 0)

/-- State of the pad-placement loop of
`generate_terrain_and_landing_zones`: the terrain profile, the zones
placed so far (in creation order), the `used_zones` list of x-spans, and
the number of raw rng draws consumed so far. -/
structure GenState where
  terrain : List (ℚ × ℚ)
  zones : List LandingZone
  used : List (ℤ × ℤ)
  ctr : ℕ
deriving DecidableEq, Repr

/-- The per-zone overlap test of the placement loop:

    if not (pad_right < zone[0] or pad_x > zone[1]):
        overlap = True

`true` means the candidate is rejected against this zone. -/
def overlapB (pad_x pad_right : ℤ) (zone : ℤ × ℤ) : Bool :=
  !(decide (pad_right < zone.1) || decide (pad_x > zone.2))

/-- Flattening of the terrain over a pad span:

    for i, (tx, ty) in enumerate(terrain_points):
        if pad_x <= tx <= pad_right:
            terrain_points[i] = (tx, pad_y)
-/
def flatten (t : List (ℚ × ℚ)) (pad_x pad_right : ℤ) (pad_y : ℚ) : List (ℚ × ℚ) :=
  t.map (fun p => if (pad_x : ℚ) ≤ p.1 ∧ p.1 ≤ (pad_right : ℚ) then (p.1, pad_y) else p)

/-- The zone recorded on acceptance:

    pad_thickness = 10
    zone_rect = pygame.Rect(pad_x, int(pad_y - pad_thickness), pad_width, pad_thickness)
    landing_zones.append(LandingZone(zone_rect.x, zone_rect.y, zone_rect.width,
                                     zone_rect.height, maxLandingSpeed=2, label="Pad"))

`pygame.Rect` truncates its float y argument via `int(...)`. -/
def mkZone (pad_x pad_width : ℤ) (pad_y : ℚ) : LandingZone :=
  { left := pad_x, top := pyInt (pad_y - 10), width := pad_width, height := 10,
    maxLandingSpeed := 2, label := "Pad" }

/-- The sampling pass of the placement loop:

    samples = []
    for x in range(pad_x, pad_right + 1, step):
        samples.append(get_terrain_height(x, terrain_points, step))
-/
def sampleHeights? (t : List (ℚ × ℚ)) (pad_x pad_right : ℤ) : Option (List ℚ) :=
  (pyRange pad_x (pad_right + 1) 20).mapM (fun x => get_terrain_height? (x : ℚ) t 20)

/-- The pad-placement loop (`while len(landing_zones) < num_zones and
attempts < 20`), with the remaining attempt budget as explicit fuel.  Each
attempt consumes two raw rng draws (pad width, then pad x). -/
def padLoop (rng : ℕ → ℕ) : ℕ → GenState → Option GenState
  | 0, s => some s
  | n + 1, s =>
    if s.zones.length < 3 then
      match randint? 80 150 (rng s.ctr) with
      | none => none
      | some pad_width =>
        match randint? 50 (WIDTH - pad_width - 50) (rng (s.ctr + 1)) with
        | none => none
        | some pad_x =>
          let pad_right := pad_x + pad_width
          if s.used.any (overlapB pad_x pad_right) then
            padLoop rng n { s with ctr := s.ctr + 2 }
          else
            match sampleHeights? s.terrain pad_x pad_right with
            | none => none
            | some samples =>
              if samples.isEmpty then padLoop rng n { s with ctr := s.ctr + 2 }
              else
                let pad_y := samples.sum / (samples.length : ℚ)
                padLoop rng n
                  { terrain := flatten s.terrain pad_x pad_right pad_y,
                    zones := s.zones ++ [mkZone pad_x pad_width pad_y],
                    used := s.used ++ [(pad_x, pad_right)],
                    ctr := s.ctr + 2 }
    else some s

/-- The raw terrain sampling of `generate_terrain_and_landing_zones`:

    for x in range(0, WIDTH + 1, step):
        y = random.randint(HEIGHT - 300, HEIGHT - 100)
        terrain_points.append((x, y))

One raw rng draw per sample. -/
def genPoints (rng : ℕ → ℕ) : Option (List (ℚ × ℚ)) :=
  ((pyRange 0 (WIDTH + 1) 20).enum).mapM
    (fun p => (randint? (HEIGHT - 300) (HEIGHT - 100) (rng p.1)).map
      (fun y : ℤ => ((p.2 : ℚ), (y : ℚ))))

/-- `generate_terrain_and_landing_zones()`, as a function of the raw
random stream: raw sampling, three smoothing passes, then the placement
loop with an attempt budget of 20, starting after the 61 draws consumed
by the raw sampling. -/
def generate_terrain_and_landing_zones (rng : ℕ → ℕ) :
    Option (List (ℚ × ℚ) × List LandingZone) :=
  match genPoints rng with
  | none => none
  | some pts =>
    match padLoop rng 20 { terrain := smooth_terrain pts 3, zones := [], used := [], ctr := 61 } with
    | none => none
    | some s => some (s.terrain, s.zones)

/-- Well-shaped terrain profile: 61 samples whose x coordinates are
0, 20, 40, …, 1200.  This is the shape produced by the raw sampling and
preserved by smoothing and flattening. -/
def ShapeT (t : List (ℚ × ℚ)) : Prop :=
  t.length = 61 ∧ ∀ i < 61, (t.getD i (0, 0)).1 = 20 * (i : ℚ)

instance : DecidablePred ShapeT := fun _ => by unfold ShapeT; infer_instance

/-- Strict x-range disjointness of two pads, as claimed by the spec:
`pad_i.right < pad_j.left OR pad_i.left > pad_j.right`. -/
def zDisj (a b : LandingZone) : Prop := a.right < b.left ∨ b.right < a.left

instance : DecidableRel zDisj := fun _ _ => by unfold zDisj; infer_instance

/-- Per-pad bounds claimed by the spec: width in [80, 150], on-screen with
a 50-pixel margin on each side, thickness 10, max landing speed 2. -/
def zBounds (z : LandingZone) : Prop :=
  80 ≤ z.width ∧ z.width ≤ 150 ∧ 50 ≤ z.left ∧ z.right ≤ WIDTH - 50 ∧
    z.height = 10 ∧ z.maxLandingSpeed = 2

instance : DecidablePred zBounds := fun _ => by unfold zBounds; infer_instance

/-- The pad-set invariant of claim C6: pairwise strictly disjoint x-ranges
and per-pad bounds. -/
def padsOk (zones : List LandingZone) : Prop :=
  zones.Pairwise zDisj ∧ ∀ z ∈ zones, zBounds z

instance : DecidablePred padsOk := fun _ => by unfold padsOk; infer_instance

/-- x coordinate of the i-th terrain sample (default-padded access). -/
def sampleX (t : List (ℚ × ℚ)) (i : ℕ) : ℚ := (t.getD i (0, 0)).1

/-- y coordinate of the i-th terrain sample (default-padded access). -/
def sampleY (t : List (ℚ × ℚ)) (i : ℕ) : ℚ := (t.getD i (0, 0)).2

/-- The interpolation parameter `t = (x - p1.x) / (p2.x - p1.x)` of
`get_terrain_height`, with `p1, p2` the bracketing samples at index
`int(x // 20)` and the next index. -/
def interpT (t : List (ℚ × ℚ)) (x : ℚ) : ℚ :=
  (x - sampleX t (⌊x / 20⌋).toNat) /
    (sampleX t ((⌊x / 20⌋).toNat + 1) - sampleX t (⌊x / 20⌋).toNat)

lemma pyInt_of_nonneg {q : ℚ} (h : 0 ≤ q) : pyInt q = ⌊q⌋ := by
  unfold pyInt
  rw [if_neg (by linarith)]

lemma max_zero_pyInt (q : ℚ) : max 0 (pyInt q) = max 0 ⌊q⌋ := by
  rcases le_or_lt 0 q with h | h
  · rw [pyInt_of_nonneg h]
  · have h1 : pyInt q = ⌈q⌉ := by unfold pyInt; rw [if_pos h]
    have h2 : ⌈q⌉ ≤ 0 := by
      rw [show (0 : ℤ) = ((0 : ℤ) : ℤ) from rfl]
      exact Int.ceil_le.mpr (by exact_mod_cast h.le)
    have h3 : ⌊q⌋ ≤ 0 := Int.floor_nonpos h.le
    rw [h1, max_eq_left h2, max_eq_left h3]

lemma randint?_eq {a b : ℤ} (h : a ≤ b) (v : ℕ) :
    randint? a b v = some (a + (v : ℤ) % (b - a + 1)) := by
  unfold randint?
  rw [if_neg (by omega)]

lemma randint?_some_bounds {a b : ℤ} {v : ℕ} {r : ℤ} (h : randint? a b v = some r) :
    a ≤ r ∧ r ≤ b := by
  unfold randint? at h
  by_cases hba : b < a
  · simp [hba] at h
  · rw [if_neg hba] at h
    have hmod1 : 0 ≤ (v : ℤ) % (b - a + 1) := Int.emod_nonneg _ (by omega)
    have hmod2 : (v : ℤ) % (b - a + 1) < b - a + 1 := Int.emod_lt_of_pos _ (by omega)
    have : r = a + (v : ℤ) % (b - a + 1) := by
      cases h
      rfl
    omega

lemma pyRange_length {a b s : ℤ} : (pyRange a b s).length = ((b - a + s - 1) / s).toNat := by
  unfold pyRange
  rw [List.length_map, List.length_range]

lemma pyRange_getElem {a b s : ℤ} {i : ℕ} (h : i < (pyRange a b s).length) :
    (pyRange a b s)[i] = a + s * i := by
  simp only [pyRange] at h ⊢
  rw [List.getElem_map, List.getElem_range]

lemma pyRange_mem {a b s : ℤ} {x : ℤ} (h : x ∈ pyRange a b s) :
    ∃ i : ℕ, (i : ℤ) < (b - a + s - 1) / s ∧ x = a + s * i := by
  obtain ⟨i, hi, rfl⟩ := List.mem_iff_getElem.mp h
  rw [pyRange_getElem hi]
  refine ⟨i, ?_, rfl⟩
  rw [pyRange_length] at hi
  omega

lemma mapM_some_spec {α β : Type} (f : α → Option β) :
    ∀ (l : List α) (bs : List β), l.mapM f = some bs →
      bs.length = l.length ∧
        ∀ (i : ℕ) (da : α) (db : β), i < l.length → f (l.getD i da) = some (bs.getD i db) := by
  intro l
  induction l with
  | nil =>
    intro bs h
    simp only [List.mapM_nil, pure, Option.some.injEq] at h
    subst h
    exact ⟨rfl, fun i da db hi => absurd hi (by simp)⟩
  | cons a tl ih =>
    intro bs h
    rw [List.mapM_cons] at h
    match ha : f a with
    | none => rw [ha] at h; simp at h
    | some b =>
      rw [ha] at h
      match htl : tl.mapM f with
      | none => rw [htl] at h; simp at h
      | some ts =>
        rw [htl] at h
        simp only [Option.bind_eq_bind, Option.some_bind, Option.pure_def,
          Option.some.injEq] at h
        subst h
        obtain ⟨hlen, hpt⟩ := ih ts htl
        refine ⟨by simp [hlen], ?_⟩
        intro i da db hi
        cases i with
        | zero => simpa using ha
        | succ j =>
          simp only [List.getD_cons_succ]
          exact hpt j da db (by simpa using hi)

lemma mapM_isSome {α β : Type} (f : α → Option β) :
    ∀ (l : List α), (∀ a ∈ l, (f a).isSome) → ∃ bs, l.mapM f = some bs := by
  intro l
  induction l with
  | nil => exact fun _ => ⟨[], by simp only [List.mapM_nil]; rfl⟩
  | cons a tl ih =>
    intro h
    obtain ⟨b, hb⟩ := Option.isSome_iff_exists.mp (h a (List.mem_cons_self a tl))
    obtain ⟨ts, hts⟩ := ih (fun x hx => h x (List.mem_cons_of_mem a hx))
    refine ⟨b :: ts, ?_⟩
    rw [List.mapM_cons, hb, hts]
    rfl

lemma shapeT_length {t : List (ℚ × ℚ)} (h : ShapeT t) : t.length = 61 := h.1

lemma shapeT_getD_fst {t : List (ℚ × ℚ)} (h : ShapeT t) {i : ℕ} (hi : i < 61) :
    (t.getD i (0, 0)).1 = 20 * (i : ℚ) := h.2 i hi

lemma getD_eq_getElem {α : Type} {l : List α} {i : ℕ} (d : α) (h : i < l.length) :
    l.getD i d = l[i] := by
  rw [List.getD_eq_getElem?_getD, List.getElem?_eq_getElem h]
  rfl

lemma shapeT_getElem_fst {t : List (ℚ × ℚ)} (h : ShapeT t) {i : ℕ} (hi : i < t.length) :
    (t[i]).1 = 20 * (i : ℚ) := by
  rw [← getD_eq_getElem (0, 0) hi]
  exact h.2 i (by rw [shapeT_length h] at hi; exact hi)

lemma height_low {t : List (ℚ × ℚ)} (ht : ShapeT t) {x : ℚ} (hx : x ≤ 0) :
    get_terrain_height? x t 20 = some (sampleY t 0) := by
  have hlen := shapeT_length ht
  have hb0 : 0 < t.length := by omega
  have hs : sampleY t 0 = (t[0]).2 := by
    unfold sampleY
    rw [getD_eq_getElem (0, 0) hb0]
  unfold get_terrain_height?
  rw [if_pos hx, List.head?_eq_getElem?, List.getElem?_eq_getElem (by omega : 0 < t.length), hs]
  rfl

lemma height_high {t : List (ℚ × ℚ)} (ht : ShapeT t) {x : ℚ} (hx : (WIDTH : ℚ) ≤ x)
    (hx0 : 0 < x) :
    get_terrain_height? x t 20 = some (sampleY t 60) := by
  have hlen := shapeT_length ht
  have hb60 : 61 - 1 < t.length := by omega
  have hs : sampleY t 60 = (t[61 - 1]).2 := by
    unfold sampleY
    rw [getD_eq_getElem (0, 0) (by omega : 60 < t.length)]
  unfold get_terrain_height?
  rw [if_neg (by linarith), if_pos hx, List.getLast?_eq_getElem?, hlen]
  rw [List.getElem?_eq_getElem (by omega : 61 - 1 < t.length), hs]
  rfl

lemma floor_div20_lt {x : ℚ} (hx1 : x < 1200) : ⌊x / 20⌋ < 60 := by
  rw [Int.floor_lt]
  push_cast
  rw [div_lt_iff₀ (by norm_num : (0 : ℚ) < 20)]
  linarith

lemma floor_div20_nonneg {x : ℚ} (hx0 : 0 < x) : 0 ≤ ⌊x / 20⌋ := by
  apply Int.floor_nonneg.mpr
  positivity

lemma height_interior {t : List (ℚ × ℚ)} (ht : ShapeT t) {x : ℚ}
    (hx0 : 0 < x) (hx1 : x < 1200) :
    get_terrain_height? x t 20 =
      some (sampleY t (⌊x / 20⌋).toNat * (1 - interpT t x) +
        sampleY t ((⌊x / 20⌋).toNat + 1) * interpT t x) := by
  have hlen := shapeT_length ht
  have hfl := floor_div20_lt hx1
  have hfn := floor_div20_nonneg hx0
  set i : ℕ := (⌊x / 20⌋).toNat with hidef
  have hi59 : i ≤ 59 := by omega
  have hit : i < t.length := by omega
  have hit1 : i + 1 < t.length := by omega
  unfold get_terrain_height?
  rw [if_neg (by linarith), if_neg (by rw [not_le]; exact lt_of_lt_of_le hx1 (by norm_num [WIDTH]))]
  have hmin : min (i + 1) (t.length - 1) = i + 1 := by omega
  simp only [← hidef, hmin]
  rw [List.getElem?_eq_getElem hit, List.getElem?_eq_getElem hit1]
  have hp1 : (t[i]).1 = 20 * (i : ℚ) := shapeT_getElem_fst ht hit
  have hp2 : (t[i + 1]).1 = 20 * ((i : ℚ) + 1) := by
    have := shapeT_getElem_fst ht hit1
    push_cast at this
    linarith
  have hden : (t[i + 1]).1 - (t[i]).1 = 20 := by rw [hp1, hp2]; ring
  simp only [hden]
  rw [if_neg (by norm_num)]
  have hT : interpT t x = (x - (t[i]).1) / 20 := by
    unfold interpT
    rw [← hidef]
    unfold sampleX
    rw [getD_eq_getElem (0, 0) hit, getD_eq_getElem (0, 0) hit1, hden]
  unfold sampleY
  rw [getD_eq_getElem (0, 0) hit, getD_eq_getElem (0, 0) hit1, hT]

lemma height_isSome {t : List (ℚ × ℚ)} (ht : ShapeT t) (x : ℚ) :
    (get_terrain_height? x t 20).isSome := by
  rcases le_or_lt x 0 with h0 | h0
  · rw [height_low ht h0]; rfl
  rcases lt_or_le x 1200 with h1 | h1
  · rw [height_interior ht h0 h1]; rfl
  · rw [height_high ht (by exact_mod_cast h1) h0]; rfl

lemma height_grid {t : List (ℚ × ℚ)} (ht : ShapeT t) {k : ℕ} (hk : k ≤ 60) :
    get_terrain_height? (20 * (k : ℚ)) t 20 = some (sampleY t k) := by
  rcases Nat.eq_zero_or_pos k with rfl | hkpos
  · exact height_low ht (by norm_num)
  rcases Nat.lt_or_ge k 60 with hk60 | hk60
  · have hx0 : (0 : ℚ) < 20 * (k : ℚ) := by positivity
    have hx1 : (20 : ℚ) * (k : ℚ) < 1200 := by
      have : (k : ℚ) < 60 := by exact_mod_cast hk60
      linarith
    rw [height_interior ht hx0 hx1]
    have hfl : ⌊(20 : ℚ) * (k : ℚ) / 20⌋ = (k : ℤ) := by
      rw [mul_comm, mul_div_assoc]
      norm_num
    have hidx : (⌊(20 : ℚ) * (k : ℚ) / 20⌋).toNat = k := by rw [hfl]; exact Int.toNat_natCast k
    have hT : interpT t (20 * (k : ℚ)) = 0 := by
      unfold interpT
      rw [hidx]
      unfold sampleX
      rw [shapeT_getD_fst ht (by omega : k < 61)]
      simp
    rw [hidx, hT]
    norm_num
  · have hk' : k = 60 := by omega
    subst hk'
    have : ((WIDTH : ℚ)) ≤ 20 * (60 : ℕ) := by norm_num [WIDTH]
    rw [height_high ht (by exact_mod_cast this) (by norm_num)]

lemma interiorAvgs_length : ∀ ps : List (ℚ × ℚ), (interiorAvgs ps).length = ps.length - 2 := by
  intro ps
  induction ps with
  | nil => rfl
  | cons p tl ih =>
    match tl with
    | [] => rfl
    | [q] => rfl
    | q :: r :: rest =>
      show (interiorAvgs (p :: q :: r :: rest)).length = (p :: q :: r :: rest).length - 2
      rw [show interiorAvgs (p :: q :: r :: rest) =
        (q.1, avg3 p.2 q.2 r.2) :: interiorAvgs (q :: r :: rest) from rfl]
      simp only [List.length_cons]
      rw [ih]
      simp only [List.length_cons]
      omega

lemma interiorAvgs_getElem? :
    ∀ (ps : List (ℚ × ℚ)) (j : ℕ), j + 2 < ps.length →
      (interiorAvgs ps)[j]? =
        some ((ps.getD (j + 1) (0, 0)).1,
          avg3 (ps.getD j (0, 0)).2 (ps.getD (j + 1) (0, 0)).2 (ps.getD (j + 2) (0, 0)).2) := by
  intro ps
  induction ps with
  | nil => intro j hj; simp at hj
  | cons p tl ih =>
    intro j hj
    match tl with
    | [] => simp at hj
    | [q] => simp at hj
    | q :: r :: rest =>
      rw [show interiorAvgs (p :: q :: r :: rest) =
        (q.1, avg3 p.2 q.2 r.2) :: interiorAvgs (q :: r :: rest) from rfl]
      match j with
      | 0 => simp
      | j' + 1 =>
        rw [List.getElem?_cons_succ]
        rw [ih j' (by simpa using hj)]
        simp

lemma smoothOnce_length : ∀ ps : List (ℚ × ℚ), 2 ≤ ps.length →
    (smoothOnce ps).length = ps.length := by
  intro ps h2
  match ps with
  | p :: rest =>
    show (p :: (interiorAvgs (p :: rest) ++ [(p :: rest).getLast (List.cons_ne_nil p rest)])).length
      = (p :: rest).length
    simp only [List.length_cons, List.length_append, List.length_singleton,
      interiorAvgs_length]
    simp at h2 ⊢
    omega

lemma getLast_eq_getD {α : Type} (l : List α) (h : l ≠ []) (d : α) :
    l.getLast h = l.getD (l.length - 1) d := by
  have hl : l.length - 1 < l.length := by
    have := List.length_pos.mpr h
    omega
  rw [List.getLast_eq_getElem, getD_eq_getElem d hl]

lemma interiorAvgs_getD (ps : List (ℚ × ℚ)) (j : ℕ) (h : j + 2 < ps.length) :
    (interiorAvgs ps).getD j (0, 0) =
      ((ps.getD (j + 1) (0, 0)).1,
        avg3 (ps.getD j (0, 0)).2 (ps.getD (j + 1) (0, 0)).2 (ps.getD (j + 2) (0, 0)).2) := by
  rw [List.getD_eq_getElem?_getD, interiorAvgs_getElem? ps j h]
  rfl

lemma smoothOnce_getD {ps : List (ℚ × ℚ)} (h2 : 2 ≤ ps.length) {i : ℕ}
    (hi : i < ps.length) :
    (smoothOnce ps).getD i (0, 0) =
      if i = 0 then ps.getD i (0, 0)
      else if i = ps.length - 1 then ps.getD i (0, 0)
      else ((ps.getD i (0, 0)).1, avg3 (ps.getD (i - 1) (0, 0)).2 (ps.getD i (0, 0)).2
        (ps.getD (i + 1) (0, 0)).2) := by
  match ps with
  | p :: rest =>
    show (p :: (interiorAvgs (p :: rest) ++
        [(p :: rest).getLast (List.cons_ne_nil p rest)])).getD i (0, 0) = _
    simp only [List.length_cons] at hi
    have hlen : (interiorAvgs (p :: rest)).length = rest.length + 1 - 2 := by
      rw [interiorAvgs_length]
      simp
    match i with
    | 0 => rw [List.getD_cons_zero, if_pos rfl, List.getD_cons_zero]
    | i' + 1 =>
      rw [List.getD_cons_succ]
      by_cases hlast : i' + 1 = (p :: rest).length - 1
      · rw [if_neg (by omega), if_pos hlast]
        simp only [List.length_cons] at hlast
        rw [List.getD_append_right _ _ _ _ (by omega)]
        rw [show i' - (interiorAvgs (p :: rest)).length = 0 from by omega]
        rw [List.getD_cons_zero, getLast_eq_getD (p :: rest) (List.cons_ne_nil p rest) (0, 0)]
        congr 1
        simp only [List.length_cons]
        omega
      · rw [if_neg (by omega), if_neg hlast]
        simp only [List.length_cons] at hlast
        rw [List.getD_append _ _ _ _ (by omega)]
        rw [interiorAvgs_getD (p :: rest) i' (by simp only [List.length_cons]; omega)]
        simp only [show i' + 1 - 1 = i' from rfl, show i' + 1 + 1 = i' + 2 from rfl]

/-- Second differences of a list of heights:
`d_i = y_i - 2*y_(i+1) + y_(i+2)`. -/
def secondDiffs : List ℚ → List ℚ
  | a :: b :: c :: rest => (a - 2 * b + c) :: secondDiffs (b :: c :: rest)
  | _ => []

/-- Maximum absolute value of a list (0 for the empty list). -/
def maxAbs (l : List ℚ) : ℚ := l.foldr (fun d m => max |d| m) 0

lemma secondDiffs_length : ∀ l : List ℚ, (secondDiffs l).length = l.length - 2 := by
  intro l
  induction l with
  | nil => rfl
  | cons a tl ih =>
    match tl with
    | [] => rfl
    | [b] => rfl
    | b :: c :: rest =>
      show (secondDiffs (a :: b :: c :: rest)).length = (a :: b :: c :: rest).length - 2
      rw [show secondDiffs (a :: b :: c :: rest) =
        (a - 2 * b + c) :: secondDiffs (b :: c :: rest) from rfl]
      simp only [List.length_cons]
      rw [ih]
      simp only [List.length_cons]
      omega

lemma secondDiffs_getElem? :
    ∀ (l : List ℚ) (j : ℕ), j + 2 < l.length →
      (secondDiffs l)[j]? = some (l.getD j 0 - 2 * l.getD (j + 1) 0 + l.getD (j + 2) 0) := by
  intro l
  induction l with
  | nil => intro j hj; simp at hj
  | cons a tl ih =>
    intro j hj
    match tl with
    | [] => simp at hj
    | [b] => simp at hj
    | b :: c :: rest =>
      rw [show secondDiffs (a :: b :: c :: rest) =
        (a - 2 * b + c) :: secondDiffs (b :: c :: rest) from rfl]
      match j with
      | 0 => simp
      | j' + 1 =>
        rw [List.getElem?_cons_succ]
        rw [ih j' (by simpa using hj)]
        simp

lemma maxAbs_nonneg : ∀ l : List ℚ, 0 ≤ maxAbs l := by
  intro l
  induction l with
  | nil => simp [maxAbs]
  | cons a tl ih =>
    show 0 ≤ max |a| (maxAbs tl)
    exact le_trans ih (le_max_right _ _)

lemma le_maxAbs {l : List ℚ} {a : ℚ} (h : a ∈ l) : |a| ≤ maxAbs l := by
  induction l with
  | nil => simp at h
  | cons b tl ih =>
    show |a| ≤ max |b| (maxAbs tl)
    rcases List.mem_cons.mp h with rfl | htl
    · exact le_max_left _ _
    · exact le_trans (ih htl) (le_max_right _ _)

lemma maxAbs_le {l : List ℚ} {M : ℚ} (hM : 0 ≤ M) (h : ∀ a ∈ l, |a| ≤ M) :
    maxAbs l ≤ M := by
  induction l with
  | nil => simpa [maxAbs]
  | cons b tl ih =>
    show max |b| (maxAbs tl) ≤ M
    exact max_le (h b (List.mem_cons_self b tl))
      (ih (fun a ha => h a (List.mem_cons_of_mem b ha)))

lemma mapSnd_getD {ps : List (ℚ × ℚ)} {k : ℕ} (h : k < ps.length) :
    (ps.map Prod.snd).getD k 0 = (ps.getD k (0, 0)).2 := by
  rw [getD_eq_getElem 0 (by simpa using h), getD_eq_getElem (0, 0) h]
  exact List.getElem_map _

lemma secondDiff_le_max {ys : List ℚ} {i : ℕ} (h : i + 2 < ys.length) :
    |ys.getD i 0 - 2 * ys.getD (i + 1) 0 + ys.getD (i + 2) 0| ≤ maxAbs (secondDiffs ys) := by
  have hq := secondDiffs_getElem? ys i h
  have hil : i < (secondDiffs ys).length := by rw [secondDiffs_length]; omega
  rw [List.getElem?_eq_getElem hil] at hq
  have hv := Option.some.inj hq
  rw [← hv]
  exact le_maxAbs (List.getElem_mem _)

lemma div3_bound3 {a b c M : ℚ} (ha : |a| ≤ M) (hb : |b| ≤ M) (hc : |c| ≤ M) :
    |(a + b + c) / 3| ≤ M := by
  rw [abs_div]
  have h1 : |a + b + c| ≤ |a| + |b| + |c| := abs_add_three a b c
  have h3 : |(3 : ℚ)| = 3 := by norm_num
  rw [h3]
  linarith

lemma div3_bound2 {a b M : ℚ} (hM : 0 ≤ M) (ha : |a| ≤ M) (hb : |b| ≤ M) :
    |(a + b) / 3| ≤ M := by
  rw [abs_div]
  have h1 : |a + b| ≤ |a| + |b| := abs_add a b
  have h3 : |(3 : ℚ)| = 3 := by norm_num
  rw [h3]
  linarith

lemma div3_bound1 {a M : ℚ} (hM : 0 ≤ M) (ha : |a| ≤ M) : |a / 3| ≤ M := by
  rw [abs_div]
  have h3 : |(3 : ℚ)| = 3 := by norm_num
  rw [h3]
  linarith

lemma smoothOnce_getD_snd {ps : List (ℚ × ℚ)} (h2 : 2 ≤ ps.length) {k : ℕ}
    (hk : k < ps.length) :
    ((smoothOnce ps).map Prod.snd).getD k 0 =
      if k = 0 then (ps.getD 0 (0, 0)).2
      else if k = ps.length - 1 then (ps.getD (ps.length - 1) (0, 0)).2
      else avg3 (ps.getD (k - 1) (0, 0)).2 (ps.getD k (0, 0)).2 (ps.getD (k + 1) (0, 0)).2 := by
  have hsl : (smoothOnce ps).length = ps.length := smoothOnce_length ps h2
  rw [mapSnd_getD (by omega), smoothOnce_getD h2 hk]
  by_cases hk0 : k = 0
  · subst hk0
    rw [if_pos rfl, if_pos rfl]
  · rw [if_neg hk0, if_neg hk0]
    by_cases hkl : k = ps.length - 1
    · rw [if_pos hkl, if_pos hkl, hkl]
    · rw [if_neg hkl, if_neg hkl]

lemma avgId1 (a b c : ℚ) : a - 2 * avg3 a b c + c = (a - 2 * b + c) / 3 := by
  unfold avg3
  ring

lemma avgId2 (a b c d : ℚ) :
    a - 2 * avg3 a b c + avg3 b c d = ((a - 2 * b + c) + (b - 2 * c + d)) / 3 := by
  unfold avg3
  ring

lemma avgId3 (a b c d e : ℚ) :
    avg3 a b c - 2 * avg3 b c d + avg3 c d e =
      ((a - 2 * b + c) + (b - 2 * c + d) + (c - 2 * d + e)) / 3 := by
  unfold avg3
  ring

lemma avgId4 (a b c d : ℚ) :
    avg3 a b c - 2 * avg3 b c d + d = ((a - 2 * b + c) + (b - 2 * c + d)) / 3 := by
  unfold avg3
  ring

lemma smoothOnce_diff_bound {ps : List (ℚ × ℚ)} (h3 : 3 ≤ ps.length) :
    ∀ d ∈ secondDiffs ((smoothOnce ps).map Prod.snd),
      |d| ≤ maxAbs (secondDiffs (ps.map Prod.snd)) := by
  intro d hd
  have h2 : 2 ≤ ps.length := by omega
  have hslen : (smoothOnce ps).length = ps.length := smoothOnce_length ps h2
  set n := ps.length with hn
  set M := maxAbs (secondDiffs (ps.map Prod.snd)) with hM
  have hMnn : 0 ≤ M := maxAbs_nonneg _
  have hD : ∀ i, i + 2 < n →
      |(ps.getD i (0, 0)).2 - 2 * (ps.getD (i + 1) (0, 0)).2 + (ps.getD (i + 2) (0, 0)).2|
        ≤ M := by
    intro i hi
    have hsd := @secondDiff_le_max (ps.map Prod.snd) i (by rw [List.length_map]; omega)
    rwa [mapSnd_getD (by omega), mapSnd_getD (by omega), mapSnd_getD (by omega)] at hsd
  obtain ⟨j, hj, rfl⟩ := List.mem_iff_getElem.mp hd
  have hjn : j + 2 < n := by
    rw [secondDiffs_length, List.length_map, hslen] at hj
    omega
  have hq := secondDiffs_getElem? ((smoothOnce ps).map Prod.snd) j
    (by rw [List.length_map, hslen]; omega)
  rw [List.getElem?_eq_getElem hj] at hq
  rw [Option.some.inj hq]
  have eA := smoothOnce_getD_snd h2 (show j < ps.length by omega)
  have eB := smoothOnce_getD_snd h2 (show j + 1 < ps.length by omega)
  have eC := smoothOnce_getD_snd h2 (show j + 2 < ps.length by omega)
  rw [if_neg (by omega), if_neg (by omega)] at eB
  by_cases hj0 : j = 0
  · subst hj0
    rw [if_pos rfl] at eA
    rw [if_neg (by omega)] at eC
    simp only [Nat.zero_add, show (1 : ℕ) - 1 = 0 from rfl, show (1 : ℕ) + 1 = 2 from rfl,
      show (2 : ℕ) - 1 = 1 from rfl, show (2 : ℕ) + 1 = 3 from rfl] at eA eB eC ⊢
    by_cases hjl : (2 : ℕ) = n - 1
    · rw [if_pos (by rw [← hn]; omega)] at eC
      rw [← hn, ← hjl] at eC
      rw [eA, eB, eC, avgId1]
      exact div3_bound1 hMnn (hD 0 (by omega))
    · rw [if_neg (by rw [← hn]; omega)] at eC
      rw [eA, eB, eC, avgId2]
      exact div3_bound2 hMnn (hD 0 (by omega)) (hD 1 (by omega))
  · obtain ⟨m, rfl⟩ : ∃ m, j = m + 1 := ⟨j - 1, by omega⟩
    rw [if_neg hj0, if_neg (by rw [← hn]; omega)] at eA
    rw [if_neg (by omega)] at eC
    simp only [show m + 1 - 1 = m from rfl, show m + 2 - 1 = m + 1 from rfl,
      show m + 3 - 1 = m + 2 from rfl, show m + 1 + 1 = m + 2 from rfl,
      show m + 1 + 2 = m + 3 from rfl, show m + 2 + 1 = m + 3 from rfl,
      show m + 3 + 1 = m + 4 from rfl] at eA eB eC ⊢
    by_cases hjl : m + 3 = n - 1
    · rw [if_pos (by rw [← hn]; omega)] at eC
      rw [← hn, ← hjl] at eC
      rw [eA, eB, eC, avgId4]
      exact div3_bound2 hMnn (hD m (by omega)) (hD (m + 1) (by omega))
    · rw [if_neg (by rw [← hn]; omega)] at eC
      rw [eA, eB, eC, avgId3]
      exact div3_bound3 (hD m (by omega)) (hD (m + 1) (by omega)) (hD (m + 2) (by omega))

lemma shapeT_smoothOnce {t : List (ℚ × ℚ)} (h : ShapeT t) : ShapeT (smoothOnce t) := by
  have hlen := shapeT_length h
  have h2 : 2 ≤ t.length := by omega
  have hslen : (smoothOnce t).length = t.length := smoothOnce_length t h2
  constructor
  · omega
  · intro i hi
    have hit : i < t.length := by omega
    rw [smoothOnce_getD h2 hit]
    by_cases h0 : i = 0
    · rw [if_pos h0]
      exact shapeT_getD_fst h (by omega)
    · rw [if_neg h0]
      by_cases hl : i = t.length - 1
      · rw [if_pos hl]
        exact shapeT_getD_fst h (by omega)
      · rw [if_neg hl]
        exact shapeT_getD_fst h (by omega)

lemma shapeT_smooth_terrain {t : List (ℚ × ℚ)} (h : ShapeT t) (n : ℕ) :
    ShapeT (smooth_terrain t n) := by
  induction n generalizing t with
  | zero => exact h
  | succ m ih => exact ih (shapeT_smoothOnce h)

lemma shapeT_flatten {t : List (ℚ × ℚ)} (h : ShapeT t) (a b : ℤ) (y : ℚ) :
    ShapeT (flatten t a b y) := by
  have hlen := shapeT_length h
  constructor
  · simp [flatten, hlen]
  · intro i hi
    have hit : i < t.length := by omega
    have hft : i < (flatten t a b y).length := by simp [flatten]; omega
    rw [getD_eq_getElem (0, 0) hft]
    unfold flatten
    rw [List.getElem_map]
    have hfst : (t[i]).1 = 20 * (i : ℚ) := shapeT_getElem_fst h hit
    by_cases hc : (a : ℚ) ≤ (t[i]).1 ∧ (t[i]).1 ≤ (b : ℚ)
    · rw [if_pos hc]
      exact hfst
    · rw [if_neg hc]
      exact hfst

lemma genPoints_spec (rng : ℕ → ℕ) : ∃ pts, genPoints rng = some pts ∧ ShapeT pts := by
  have hr : ∀ p ∈ (pyRange 0 (WIDTH + 1) 20).enum,
      ((randint? (HEIGHT - 300) (HEIGHT - 100) (rng p.1)).map
        (fun y : ℤ => ((p.2 : ℚ), (y : ℚ)))).isSome := by
    intro p _
    rw [randint?_eq (by norm_num [HEIGHT]) (rng p.1)]
    rfl
  obtain ⟨pts, hpts⟩ := mapM_isSome _ _ hr
  refine ⟨pts, hpts, ?_⟩
  obtain ⟨hlen, hpt⟩ := mapM_some_spec _ _ _ hpts
  have hrange_len : (pyRange 0 (WIDTH + 1) 20).length = 61 := by
    rw [pyRange_length]
    rfl
  have henum_len : (pyRange 0 (WIDTH + 1) 20).enum.length = 61 := by
    rw [List.enum_length, hrange_len]
  constructor
  · rw [hlen, henum_len]
  · intro i hi
    have hie : i < (pyRange 0 (WIDTH + 1) 20).enum.length := by omega
    have hgd := hpt i ((0, 0) : ℕ × ℤ) ((0, 0) : ℚ × ℚ) (by omega)
    have hpl : i < (pyRange 0 (WIDTH + 1) 20).length := by omega
    have henum : (pyRange 0 (WIDTH + 1) 20).enum.getD i (0, 0) =
        (i, (pyRange 0 (WIDTH + 1) 20)[i]) := by
      rw [getD_eq_getElem (0, 0) hie]
      exact List.getElem_enum _ _ _
    rw [henum] at hgd
    rw [randint?_eq (by norm_num [HEIGHT]) (rng i)] at hgd
    simp only [Option.map_some', Option.some.injEq] at hgd
    rw [← hgd]
    rw [pyRange_getElem (by omega)]
    push_cast
    ring

lemma sampleHeights?_some {t : List (ℚ × ℚ)} (ht : ShapeT t) (a b : ℤ) :
    ∃ ss, sampleHeights? t a b = some ss :=
  mapM_isSome _ _ (fun x _ => height_isSome ht (x : ℚ))

/-- Loop invariant of the pad-placement loop: well-shaped terrain, at most
three pads, `used_zones` mirroring the pad spans, pairwise strict
disjointness and per-pad bounds. -/
def GenInv (s : GenState) : Prop :=
  ShapeT s.terrain ∧ s.zones.length ≤ 3 ∧
    s.used = s.zones.map (fun z => (z.left, z.right)) ∧
    s.zones.Pairwise zDisj ∧ ∀ z ∈ s.zones, zBounds z

lemma padLoop_spec (rng : ℕ → ℕ) :
    ∀ (n : ℕ) (s : GenState), GenInv s →
      ∃ s2, padLoop rng n s = some s2 ∧ GenInv s2 ∧ s2.ctr ≤ s.ctr + 2 * n := by
  have hW : WIDTH = 1200 := rfl
  intro n
  induction n with
  | zero => intro s hs; exact ⟨s, rfl, hs, by omega⟩
  | succ m ih =>
    intro s hs
    obtain ⟨hshape, hslen, hused, hpw, hbounds⟩ := hs
    by_cases hlen : s.zones.length < 3
    case neg =>
      refine ⟨s, ?_, ⟨hshape, hslen, hused, hpw, hbounds⟩, by omega⟩
      rw [padLoop, if_neg hlen]
    case pos =>
    have hw := randint?_eq (show (80 : ℤ) ≤ 150 by norm_num) (rng s.ctr)
    set w : ℤ := 80 + (rng s.ctr : ℤ) % (150 - 80 + 1) with hwdef
    have hwb : 80 ≤ w ∧ w ≤ 150 := randint?_some_bounds hw
    have hx := randint?_eq (show (50 : ℤ) ≤ WIDTH - w - 50 by omega) (rng (s.ctr + 1))
    set px : ℤ := 50 + (rng (s.ctr + 1) : ℤ) % (WIDTH - w - 50 - 50 + 1) with hpxdef
    have hxb : 50 ≤ px ∧ px ≤ WIDTH - w - 50 := randint?_some_bounds hx
    rw [padLoop, if_pos hlen, hw]
    dsimp only
    rw [hx]
    dsimp only
    by_cases hov : s.used.any (overlapB px (px + w)) = true
    · rw [if_pos hov]
      obtain ⟨s2, hrun, hinv, hctr⟩ := ih { s with ctr := s.ctr + 2 }
        ⟨hshape, hslen, hused, hpw, hbounds⟩
      exact ⟨s2, hrun, hinv, by simp at hctr ⊢; omega⟩
    · rw [if_neg hov]
      obtain ⟨ss, hss⟩ := sampleHeights?_some hshape px (px + w)
      rw [hss]
      simp only []
      by_cases hemp : ss.isEmpty = true
      · rw [if_pos hemp]
        obtain ⟨s2, hrun, hinv, hctr⟩ := ih { s with ctr := s.ctr + 2 }
          ⟨hshape, hslen, hused, hpw, hbounds⟩
        exact ⟨s2, hrun, hinv, by simp at hctr ⊢; omega⟩
      · rw [if_neg hemp]
        have hovf : ∀ zp ∈ s.used, overlapB px (px + w) zp = false := by
          intro zp hzp
          have htmp := List.any_eq_false.mp (eq_false_of_ne_true hov) zp hzp
          simpa using htmp
        have hdisjnew : ∀ a ∈ s.zones, zDisj a (mkZone px w (ss.sum / (ss.length : ℚ))) := by
          intro a ha
          have hmem : (a.left, a.right) ∈ s.used := by
            rw [hused]
            exact List.mem_map.mpr ⟨a, ha, rfl⟩
          have hof := hovf _ hmem
          unfold overlapB at hof
          simp only [Bool.not_eq_false', Bool.or_eq_true, decide_eq_true_eq] at hof
          unfold zDisj
          have hleft : (mkZone px w (ss.sum / (ss.length : ℚ))).left = px := rfl
          have hright : (mkZone px w (ss.sum / (ss.length : ℚ))).right = px + w := rfl
          rw [hleft, hright]
          rcases hof with h1 | h2
          · right
            exact h1
          · left
            exact h2
        have hinvnew : GenInv (⟨flatten s.terrain px (px + w) (ss.sum / (ss.length : ℚ)),
            s.zones ++ [mkZone px w (ss.sum / (ss.length : ℚ))],
            s.used ++ [(px, px + w)], s.ctr + 2⟩ : GenState) := by
          refine ⟨shapeT_flatten hshape _ _ _, ?_, ?_, ?_, ?_⟩
          · simp only [List.length_append, List.length_singleton]
            omega
          · rw [List.map_append, ← hused]
            rfl
          · rw [List.pairwise_append]
            refine ⟨hpw, List.pairwise_singleton _ _, ?_⟩
            intro a ha b hb
            rw [List.mem_singleton] at hb
            subst hb
            exact hdisjnew a ha
          · intro z hz
            rw [List.mem_append, List.mem_singleton] at hz
            rcases hz with hz | rfl
            · exact hbounds z hz
            · unfold zBounds mkZone LandingZone.right
              dsimp only
              refine ⟨?_, ?_, ?_, ?_, ?_, ?_⟩
              · omega
              · omega
              · omega
              · omega
              · rfl
              · rfl
        obtain ⟨s2, hrun, hinv, hctr⟩ := ih _ hinvnew
        exact ⟨s2, hrun, hinv, by simp at hctr ⊢; omega⟩

lemma generate_spec (rng : ℕ → ℕ) :
    ∃ (pts : List (ℚ × ℚ)) (s2 : GenState),
      genPoints rng = some pts ∧
      padLoop rng 20 ⟨smooth_terrain pts 3, [], [], 61⟩ = some s2 ∧
      generate_terrain_and_landing_zones rng = some (s2.terrain, s2.zones) ∧
      ShapeT s2.terrain ∧ s2.zones.Pairwise zDisj ∧ (∀ z ∈ s2.zones, zBounds z) ∧
      s2.zones.length ≤ 3 ∧ s2.ctr ≤ 101 := by
  obtain ⟨pts, hpts, hshape⟩ := genPoints_spec rng
  have hinv0 : GenInv ⟨smooth_terrain pts 3, [], [], 61⟩ :=
    ⟨shapeT_smooth_terrain hshape 3, by simp, rfl, List.Pairwise.nil, by simp⟩
  obtain ⟨s2, hrun, ⟨hsh2, hlen2, _, hpw2, hb2⟩, hctr⟩ := padLoop_spec rng 20 _ hinv0
  refine ⟨pts, s2, hpts, hrun, ?_, hsh2, hpw2, hb2, hlen2, by simpa using hctr⟩
  unfold generate_terrain_and_landing_zones
  rw [hpts]
  dsimp only
  rw [hrun]

lemma padLoop_accept (rng : ℕ → ℕ) (n : ℕ) (s : GenState) (w px : ℤ) (ss : List ℚ)
    (hlen : s.zones.length < 3)
    (hw : randint? 80 150 (rng s.ctr) = some w)
    (hx : randint? 50 (WIDTH - w - 50) (rng (s.ctr + 1)) = some px)
    (hov : s.used.any (overlapB px (px + w)) = false)
    (hss : sampleHeights? s.terrain px (px + w) = some ss)
    (hne : ss.isEmpty = false) :
    padLoop rng (n + 1) s =
      padLoop rng n ⟨flatten s.terrain px (px + w) (ss.sum / (ss.length : ℚ)),
        s.zones ++ [mkZone px w (ss.sum / (ss.length : ℚ))],
        s.used ++ [(px, px + w)], s.ctr + 2⟩ := by
  rw [padLoop, if_pos hlen, hw]
  dsimp only
  rw [hx]
  dsimp only
  rw [hov, if_neg Bool.false_ne_true]
  rw [hss]
  dsimp only
  rw [hne, if_neg Bool.false_ne_true]

lemma if_neg_max (v : ℚ) : (if v < 0 then (0 : ℚ) else v) = max 0 v := by
  rcases lt_or_le v 0 with h | h
  · rw [if_pos h, max_eq_left h.le]
  · rw [if_neg (not_lt.mpr h), max_eq_right h]

/-- C3: one `Lander.update` step adds `gravity` to `vy` with no dt factor;
when thrusting with positive fuel it adds `-thrust*sin(radians angle)` to
`vx` and `-thrust*cos(radians angle)` to `vy` with no dt factor and
decrements fuel by `fuelConsumptionRate * dt` clamped at 0; position is
then integrated from the updated velocities (`x += vx; y += vy`, no dt
factor).  Only the fuel decrement mentions `dt`. -/
theorem craft_update_step (sinD cosD : ℚ → ℚ) (l : Lander) (dt : ℚ) (thr : Bool) :
    (l.update sinD cosD dt thr).vx =
        l.vx + (if thr ∧ 0 < l.fuel then -l.thrust * sinD l.angle else 0) ∧
      (l.update sinD cosD dt thr).vy =
        l.vy + l.gravity + (if thr ∧ 0 < l.fuel then -l.thrust * cosD l.angle else 0) ∧
      (l.update sinD cosD dt thr).fuel =
        (if thr ∧ 0 < l.fuel then max 0 (l.fuel - l.fuelConsumptionRate * dt) else l.fuel) ∧
      (l.update sinD cosD dt thr).x = l.x + (l.update sinD cosD dt thr).vx ∧
      (l.update sinD cosD dt thr).y = l.y + (l.update sinD cosD dt thr).vy := by
  by_cases h : thr = true ∧ 0 < l.fuel
  · refine ⟨?_, ?_, ?_, ?_, ?_⟩ <;>
      simp only [Lander.update, if_pos h, if_neg_max] <;> ring
  · refine ⟨?_, ?_, ?_, ?_, ?_⟩ <;>
      simp only [Lander.update, if_neg h] <;> try ring

lemma update_fuel_nonneg (sinD cosD : ℚ → ℚ) (l : Lander) (dt : ℚ) (thr : Bool)
    (hf : 0 ≤ l.fuel) : 0 ≤ (l.update sinD cosD dt thr).fuel := by
  unfold Lander.update
  by_cases h : thr = true ∧ 0 < l.fuel
  · rw [if_pos h]
    dsimp only
    rw [if_neg_max]
    exact le_max_left 0 _
  · rw [if_neg h]
    exact hf

lemma updates_fuel_nonneg (sinD cosD : ℚ → ℚ) (inputs : List (ℚ × Bool)) :
    ∀ l : Lander, 0 ≤ l.fuel → 0 ≤ (l.updates sinD cosD inputs).fuel := by
  induction inputs with
  | nil => exact fun l hf => hf
  | cons p tl ih =>
    intro l hf
    exact ih _ (update_fuel_nonneg sinD cosD l p.1 p.2 hf)

/-- C7: fuel stays nonnegative: one `Lander.update` from a state with
`fuel ≥ 0` (and `dt ≥ 0`) leaves `fuel ≥ 0`, and so does any sequence of
updates. -/
theorem craft_fuel_nonneg (sinD cosD : ℚ → ℚ) (l : Lander) (dt : ℚ) (thr : Bool)
    (inputs : List (ℚ × Bool)) (hf : 0 ≤ l.fuel) (_hdt : 0 ≤ dt) :
    0 ≤ (l.update sinD cosD dt thr).fuel ∧ 0 ≤ (l.updates sinD cosD inputs).fuel :=
  ⟨update_fuel_nonneg sinD cosD l dt thr hf, updates_fuel_nonneg sinD cosD inputs l hf⟩

/-- C7 witness: the single-step and sequence fuel bounds at a concrete
craft state with fuel 1/10, dt 1, thrusting. -/
theorem craft_fuel_nonneg_witness :
    0 ≤ (Lander.init (1/10)).fuel ∧ (0 : ℚ) ≤ 1 ∧
      (0 ≤ ((Lander.init (1/10)).update (fun _ => 0) (fun _ => 1) 1 true).fuel ∧
        0 ≤ ((Lander.init (1/10)).updates (fun _ => 0) (fun _ => 1)
          [(1, true), (1, true), (1, false)]).fuel) :=
  ⟨by norm_num [Lander.init], by norm_num,
    craft_fuel_nonneg (fun _ => 0) (fun _ => 1) (Lander.init (1/10)) 1 true
      [(1, true), (1, true), (1, false)] (by norm_num [Lander.init]) (by norm_num)⟩

/-- C10: `Lander.update` leaves the heading angle and the per-instance
constants (gravity, thrust, fuel consumption rate) unchanged; when not
thrusting or out of fuel, fuel and `vx` are unchanged and `vy` changes by
exactly `gravity`. -/
theorem craft_update_frame (sinD cosD : ℚ → ℚ) (l : Lander) (dt : ℚ) (thr : Bool) :
    (l.update sinD cosD dt thr).angle = l.angle ∧
      (l.update sinD cosD dt thr).gravity = l.gravity ∧
      (l.update sinD cosD dt thr).thrust = l.thrust ∧
      (l.update sinD cosD dt thr).fuelConsumptionRate = l.fuelConsumptionRate ∧
      ((thr = false ∨ l.fuel ≤ 0) →
        (l.update sinD cosD dt thr).fuel = l.fuel ∧
          (l.update sinD cosD dt thr).vx = l.vx ∧
          (l.update sinD cosD dt thr).vy = l.vy + l.gravity) := by
  by_cases h : thr = true ∧ 0 < l.fuel
  · refine ⟨?_, ?_, ?_, ?_, fun hc => absurd h ?_⟩ <;>
      try simp only [Lander.update, if_pos h]
    rcases hc with hc | hc
    · rintro ⟨h1, -⟩
      rw [hc] at h1
      exact Bool.false_ne_true h1
    · rintro ⟨-, h2⟩
      exact absurd h2 (not_lt.mpr hc)
  · refine ⟨?_, ?_, ?_, ?_, fun hc => ⟨?_, ?_, ?_⟩⟩ <;>
      simp only [Lander.update, if_neg h]

/-- C10 witness: the frame-effect equations at a concrete non-thrusting
state. -/
theorem craft_update_frame_witness :
    ((Lander.init (1/10)).update (fun _ => 0) (fun _ => 1) 1 false).angle =
        (Lander.init (1/10)).angle ∧
      ((Lander.init (1/10)).update (fun _ => 0) (fun _ => 1) 1 false).fuel =
        (Lander.init (1/10)).fuel ∧
      ((Lander.init (1/10)).update (fun _ => 0) (fun _ => 1) 1 false).vy =
        (Lander.init (1/10)).vy + (Lander.init (1/10)).gravity := by
  have h := craft_update_frame (fun _ => 0) (fun _ => 1) (Lander.init (1/10)) 1 false
  exact ⟨h.1, (h.2.2.2.2 (Or.inl rfl)).1, (h.2.2.2.2 (Or.inl rfl)).2.2⟩

/-- Concrete flat terrain profile (all samples at height 500), used to
instantiate theorems at concrete inputs. -/
def flatTerrain : List (ℚ × ℚ) := (List.range 61).map (fun i => (20 * (i : ℚ), 500))

/-- Concrete landing pad spanning x ∈ [50, 150] with max landing speed 2. -/
def padA : LandingZone := ⟨50, 480, 100, 10, 2, "Pad"⟩

/-- Conclusion of the contact-frame claim: on a contact frame the result
comes from `evalContact`; the outcome is Landed iff the first containing
pad (creation order, inclusive boundaries) admits the speed; on landing
the score delta is `⌊fuel⌋ + max 0 ⌊(maxLandingSpeed - speed) * 50⌋`; any
other contact outcome is Crashed with delta 0; and the concrete instance
maxLandingSpeed 2, speed 1, fuel 47.6 yields delta 97. -/
def ContactConcl (terrain : List (ℚ × ℚ)) (zones : List LandingZone)
    (x y speed fuel : ℚ) (lz : LandingZone) : Prop :=
  frameCollision terrain zones x y speed fuel = some (evalContact zones x speed fuel) ∧
    ((evalContact zones x speed fuel).1 = Outcome.landed ↔
      ∃ lz2, findZone zones x = some lz2 ∧ speed ≤ lz2.maxLandingSpeed) ∧
    ((findZone zones x).isSome ↔
      ∃ lz2 ∈ zones, (lz2.left : ℚ) ≤ x ∧ x ≤ (lz2.right : ℚ)) ∧
    (findZone zones x = some lz → speed ≤ lz.maxLandingSpeed →
      evalContact zones x speed fuel =
        (Outcome.landed, ⌊fuel⌋ + max 0 ⌊(lz.maxLandingSpeed - speed) * 50⌋)) ∧
    ((evalContact zones x speed fuel).1 ≠ Outcome.landed →
      evalContact zones x speed fuel = (Outcome.crashed, 0)) ∧
    evalContact [padA] 100 1 (47.6 : ℚ) = (Outcome.landed, 97)

/-- C1: on every frame where contact occurs (`craft.y + 15 ≥ ground_y` at
`craft.x`), the outcome is Landed iff the first landing pad (in creation
order) whose x-range contains `craft.x` (inclusive at both edges) admits
`speed ≤ maxLandingSpeed`; in that case the score delta is
`⌊fuel⌋ + max 0 ⌊(maxLandingSpeed - speed) * 50⌋` (97 for
maxLandingSpeed 2, speed 1.0, fuel 47.6); every other contact outcome is
Crashed with score delta 0. -/
theorem contact_outcome_spec (terrain : List (ℚ × ℚ)) (zones : List LandingZone)
    (x y speed fuel gy : ℚ) (lz : LandingZone)
    (hfuel : 0 ≤ fuel)
    (hgy : get_terrain_height? x terrain 20 = some gy)
    (hcontact : y + 15 ≥ gy) :
    ContactConcl terrain zones x y speed fuel lz := by
  refine ⟨?_, ?_, ?_, ?_, ?_, by decide⟩
  · unfold frameCollision
    rw [hgy]
    dsimp only
    rw [if_pos hcontact]
  · unfold evalContact
    cases hfind : findZone zones x with
    | none =>
      dsimp only
      constructor
      · intro hcr
        exact absurd hcr (by decide)
      · rintro ⟨lz2, hlz2, -⟩
        exact Option.noConfusion hlz2
    | some lz2 =>
      dsimp only
      by_cases hsp : speed ≤ lz2.maxLandingSpeed
      · rw [if_pos hsp]
        exact ⟨fun _ => ⟨lz2, rfl, hsp⟩, fun _ => rfl⟩
      · rw [if_neg hsp]
        constructor
        · intro hcr
          exact absurd hcr (by decide)
        · rintro ⟨lz3, hlz3, hsp3⟩
          cases Option.some.inj hlz3
          exact absurd hsp3 hsp
  · unfold findZone
    rw [List.find?_isSome]
    constructor
    · rintro ⟨z, hz, hp⟩
      simp only [Bool.and_eq_true, decide_eq_true_eq] at hp
      exact ⟨z, hz, hp⟩
    · rintro ⟨z, hz, h1, h2⟩
      refine ⟨z, hz, ?_⟩
      simp only [Bool.and_eq_true, decide_eq_true_eq]
      exact ⟨h1, h2⟩
  · intro hfind hsp
    unfold evalContact
    rw [hfind]
    dsimp only
    rw [if_pos hsp, pyInt_of_nonneg hfuel, max_zero_pyInt]
  · intro hne
    unfold evalContact at hne ⊢
    cases hfind : findZone zones x with
    | none => rfl
    | some lz2 =>
      rw [hfind] at hne
      dsimp only at hne ⊢
      by_cases hsp : speed ≤ lz2.maxLandingSpeed
      · rw [if_pos hsp] at hne
        exact absurd rfl hne
      · rw [if_neg hsp]

set_option maxRecDepth 100000 in
/-- C1 witness: the contact-frame conclusion instantiated on a flat
terrain at height 500, a pad spanning [50, 150], craft at x 100,
y 490 (bottom 505 ≥ 500), speed 1, fuel 47.6. -/
theorem contact_outcome_spec_witness :
    0 ≤ (47.6 : ℚ) ∧ get_terrain_height? 100 flatTerrain 20 = some 500 ∧
      (490 : ℚ) + 15 ≥ 500 ∧ ContactConcl flatTerrain [padA] 100 490 1 (47.6 : ℚ) padA :=
  ⟨by norm_num, by decide, by norm_num,
    contact_outcome_spec flatTerrain [padA] 100 490 1 (47.6 : ℚ) 500 padA
      (by norm_num) (by decide) (by norm_num)⟩

/-- Conclusion of the heightAt claim: clamped boundary queries, the
interior interpolation formula `p1.y*(1-t) + p2.y*t` at index
`⌊x/step⌋`, totality (no division error, no index error), and exact
reproduction of the sample at a grid point. -/
def HeightConcl (t : List (ℚ × ℚ)) (x : ℚ) (k : ℕ) : Prop :=
  (x ≤ 0 → get_terrain_height? x t 20 = some (sampleY t 0)) ∧
    ((1200 : ℚ) ≤ x → get_terrain_height? x t 20 = some (sampleY t 60)) ∧
    (0 < x → x < 1200 →
      get_terrain_height? x t 20 =
        some (sampleY t (⌊x / 20⌋).toNat * (1 - interpT t x) +
          sampleY t ((⌊x / 20⌋).toNat + 1) * interpT t x)) ∧
    (get_terrain_height? x t 20).isSome ∧
    get_terrain_height? (20 * (k : ℚ)) t 20 = some (sampleY t k)

/-- C2: for every height profile with samples at x = 0, 20, …, 1200,
`get_terrain_height` returns the first sample's y for x ≤ 0, the last
sample's y for x ≥ 1200, and the linear interpolation
`p1.y*(1-t) + p2.y*t` with `t = (x - p1.x)/(p2.x - p1.x)` between the
samples at index `⌊x/20⌋` and the next index for 0 < x < 1200; a grid
point reproduces its sample exactly, and the query never fails (no
division by zero). -/
theorem heightAt_spec (t : List (ℚ × ℚ)) (x : ℚ) (k : ℕ)
    (ht : ShapeT t) (hk : k ≤ 60) : HeightConcl t x k := by
  refine ⟨fun h0 => height_low ht h0, fun hW => ?_,
    fun h0 h1 => height_interior ht h0 h1, height_isSome ht x, height_grid ht hk⟩
  exact height_high ht (le_trans (by norm_num [WIDTH]) hW) (by linarith)

set_option maxRecDepth 100000 in
/-- C2 witness: the heightAt conclusion instantiated on the flat profile
at x = 30 and grid index k = 1. -/
theorem heightAt_spec_witness :
    ShapeT flatTerrain ∧ (1 : ℕ) ≤ 60 ∧ HeightConcl flatTerrain 30 1 :=
  ⟨by decide, by norm_num,
    heightAt_spec flatTerrain 30 1 (by decide) (by norm_num)⟩

/-- Concrete already-placed pad spanning [200, 300], for the overlap
counterexample. -/
def padB : LandingZone := ⟨200, 490, 100, 10, 2, "Pad"⟩

/-- Placement-loop state holding `padB`, with its span in `used_zones`. -/
def stateC5 : GenState := ⟨flatTerrain, [padB], [(200, 300)], 0⟩

/-- Raw rng stream making the next candidate pad exactly touch `padB`:
width draw 20 gives `randint(80,150) = 100`, x draw 50 gives
`randint(50,1050) = 100`, so the candidate spans [100, 200]. -/
def rngC5 : ℕ → ℕ := fun n => if n = 0 then 20 else 50

set_option maxRecDepth 100000 in
/-- C5 counterexample: a candidate pad [100, 200] that merely touches the
existing pad [200, 300] at the endpoint 200 IS flagged as overlapping
(`overlapB = true`), and the placement attempt is rejected: the loop step
consumes the two draws and adds no zone, leaving terrain, zones and
used-spans unchanged. -/
theorem overlap_touching_rejected_cex :
    overlapB 100 200 (200, 300) = true ∧
      padLoop rngC5 1 stateC5 = some ⟨flatTerrain, [padB], [(200, 300)], 2⟩ := by
  constructor
  · decide
  · decide

/-- C5 amended: the overlap test treats pad spans as closed intervals, so
a candidate that touches an existing pad at an endpoint (`pad_right =
zone.left` or `pad_x = zone.right`) is rejected as overlapping; a
candidate passes only when strictly beyond (`pad_right < zone.left` or
`pad_x > zone.right`). -/
theorem overlap_touching_amended (px pr zl zr : ℤ) (h1 : px ≤ pr) (h2 : zl ≤ zr)
    (h3 : pr = zl ∨ px = zr) :
    overlapB px pr (zl, zr) = true ∧
      (overlapB px pr (zl, zr) = false ↔ (pr < zl ∨ zr < px)) := by
  unfold overlapB
  constructor
  · simp only [Bool.not_eq_true', Bool.or_eq_false_iff, decide_eq_false_iff_not, not_lt]
    omega
  · simp only [Bool.not_eq_false', Bool.or_eq_true, decide_eq_true_eq]

/-- C5 amended witness: the touching candidate [100, 200] against the pad
span [200, 300]. -/
theorem overlap_touching_amended_witness :
    overlapB 100 200 (200, 300) = true ∧
      (overlapB 100 200 (200, 300) = false ↔ ((200 : ℤ) < 200 ∨ (300 : ℤ) < 100)) :=
  overlap_touching_amended 100 200 200 300 (by norm_num) (by norm_num) (Or.inl rfl)

/-- Concrete quadratic profile y = (x/20)²: its second differences are
constantly 2, before and after one smoothing pass. -/
def quadTerrain : List (ℚ × ℚ) := [(0, 0), (20, 1), (40, 4), (60, 9), (80, 16)]

set_option maxRecDepth 100000 in
/-- C9 counterexample: one smoothing pass does NOT strictly reduce the
maximum interior second-difference: on the 5-sample quadratic profile the
maximum is 2 both before and after the pass. -/
theorem smoothing_strict_cex :
    3 ≤ quadTerrain.length ∧
      ¬ maxAbs (secondDiffs ((smoothOnce quadTerrain).map Prod.snd)) <
          maxAbs (secondDiffs (quadTerrain.map Prod.snd)) := by
  constructor
  · decide
  · decide

/-- C9 amended: one smoothing pass never increases the maximum interior
second-difference (non-strict monotone smoothing); strict decrease fails
in general (see the counterexample). -/
theorem smoothing_nonincrease (ps : List (ℚ × ℚ)) (h3 : 3 ≤ ps.length) :
    maxAbs (secondDiffs ((smoothOnce ps).map Prod.snd)) ≤
      maxAbs (secondDiffs (ps.map Prod.snd)) :=
  maxAbs_le (maxAbs_nonneg _) (smoothOnce_diff_bound h3)

/-- C9 amended witness: the non-increase bound on the quadratic profile. -/
theorem smoothing_nonincrease_witness :
    3 ≤ quadTerrain.length ∧
      maxAbs (secondDiffs ((smoothOnce quadTerrain).map Prod.snd)) ≤
        maxAbs (secondDiffs (quadTerrain.map Prod.snd)) :=
  ⟨by decide, smoothing_nonincrease quadTerrain (by decide)⟩

/-- Conclusion of the pad-acceptance claim: an accepted attempt continues
the loop with exactly the flattened terrain, the appended zone and the
appended used-span; the recorded zone is at `(pad_x, int(pad_y -
thickness))` with the drawn width, thickness 10 and max landing speed 2;
`pad_y` is the arithmetic mean of the heights sampled every 20 units
across the span on the profile BEFORE this pad's flattening; and
flattening overwrites exactly the in-span samples with `pad_y`. -/
def AcceptConcl (rng : ℕ → ℕ) (n : ℕ) (s : GenState) (w px : ℤ) (ss : List ℚ) : Prop :=
  padLoop rng (n + 1) s =
      padLoop rng n ⟨flatten s.terrain px (px + w) (ss.sum / (ss.length : ℚ)),
        s.zones ++ [mkZone px w (ss.sum / (ss.length : ℚ))],
        s.used ++ [(px, px + w)], s.ctr + 2⟩ ∧
    mkZone px w (ss.sum / (ss.length : ℚ)) =
      ⟨px, pyInt (ss.sum / (ss.length : ℚ) - 10), w, 10, 2, "Pad"⟩ ∧
    (∀ p ∈ flatten s.terrain px (px + w) (ss.sum / (ss.length : ℚ)),
      (px : ℚ) ≤ p.1 ∧ p.1 ≤ ((px + w : ℤ) : ℚ) → p.2 = ss.sum / (ss.length : ℚ)) ∧
    (∀ p ∈ s.terrain, ¬((px : ℚ) ≤ p.1 ∧ p.1 ≤ ((px + w : ℤ) : ℚ)) →
      p ∈ flatten s.terrain px (px + w) (ss.sum / (ss.length : ℚ)))

/-- C4 (amended): for every accepted pad during terrain generation, the
loop continues with pad_y equal to the mean of the pre-flattening
interpolated heights sampled every 20 units over [pad_x, pad_right]
(`ss` is that sample list by hypothesis `hss`), every in-span terrain
sample overwritten to exactly pad_y, off-span samples untouched, and the
recorded LandingZone rectangle at `(pad_x, int(pad_y - 10))` — the y
coordinate truncated to an integer by `pygame.Rect`/`int(...)` — with the
drawn width, thickness 10 and maxLandingSpeed 2. -/
theorem pad_accept_spec (rng : ℕ → ℕ) (n : ℕ) (s : GenState) (w px : ℤ) (ss : List ℚ)
    (hlen : s.zones.length < 3)
    (hw : randint? 80 150 (rng s.ctr) = some w)
    (hx : randint? 50 (WIDTH - w - 50) (rng (s.ctr + 1)) = some px)
    (hov : s.used.any (overlapB px (px + w)) = false)
    (hss : sampleHeights? s.terrain px (px + w) = some ss)
    (hne : ss.isEmpty = false) :
    AcceptConcl rng n s w px ss := by
  refine ⟨padLoop_accept rng n s w px ss hlen hw hx hov hss hne, rfl, ?_, ?_⟩
  · intro p hp hspan
    unfold flatten at hp
    obtain ⟨q, hq, hfq⟩ := List.mem_map.mp hp
    by_cases hc : (px : ℚ) ≤ q.1 ∧ q.1 ≤ ((px + w : ℤ) : ℚ)
    · rw [if_pos hc] at hfq
      rw [← hfq]
    · rw [if_neg hc] at hfq
      rw [← hfq] at hspan
      exact absurd hspan hc
  · intro p hp hspan
    unfold flatten
    have hfp : (if (px : ℚ) ≤ p.1 ∧ p.1 ≤ ((px + w : ℤ) : ℚ) then (p.1, ss.sum /
        (ss.length : ℚ)) else p) = p := if_neg hspan
    rw [← hfp]
    exact List.mem_map_of_mem _ hp

/-- Empty placement state over the flat profile, for the acceptance
witness. -/
def stateC4 : GenState := ⟨flatTerrain, [], [], 0⟩

/-- The constantly-zero raw rng stream: every randint returns its lower
bound. -/
def rngZero : ℕ → ℕ := fun _ => 0

set_option maxRecDepth 1000000 in
/-- C4 witness: the acceptance conclusion at a concrete accepted attempt:
flat terrain, draws (0,0) giving width 80 and x 50, samples all 500. -/
theorem pad_accept_spec_witness :
    stateC4.zones.length < 3 ∧
      randint? 80 150 (rngZero stateC4.ctr) = some 80 ∧
      randint? 50 (WIDTH - 80 - 50) (rngZero (stateC4.ctr + 1)) = some 50 ∧
      stateC4.used.any (overlapB 50 (50 + 80)) = false ∧
      sampleHeights? stateC4.terrain 50 (50 + 80) = some [500, 500, 500, 500, 500] ∧
      ([(500 : ℚ), 500, 500, 500, 500].isEmpty = false) ∧
      AcceptConcl rngZero 0 stateC4 80 50 [500, 500, 500, 500, 500] :=
  ⟨by decide, by decide, by decide, by decide, by decide, by decide,
    pad_accept_spec rngZero 0 stateC4 80 50 [500, 500, 500, 500, 500] (by decide)
      (by decide) (by decide) (by decide) (by decide) (by decide)⟩

/-- Raw rng stream whose first terrain draw is 1 (height 501 at x = 0)
and all other draws 0: the accepted pad spans [50, 130] and its pad_y is
the non-integral mean 500 + 7/270. -/
def rngC4 : ℕ → ℕ := fun n => if n = 0 then 1 else 0

set_option maxRecDepth 1000000 in
/-- C4 counterexample: in the concrete run driven by `rngC4`, the
flattened terrain sample at x = 60 (inside the accepted pad's span
[50, 130]) has height pad_y = 500 + 7/270, but the recorded zone's top is
the truncated 490 — not pad_y - 10 = 490 + 7/270 as the claim states. -/
theorem pad_rect_truncation_cex :
    (generate_terrain_and_landing_zones rngC4).map
        (fun r => ((r.1.getD 3 (0, 0)).2, r.2.map (fun z => z.top))) =
      some ((500 + 7/270 : ℚ), [(490 : ℤ)]) ∧
      ¬ ((500 + 7/270 : ℚ) - 10 = ((490 : ℤ) : ℚ)) := by
  constructor
  · decide
  · decide

/-- C6: every pad set returned by terrain generation, for every random
source, has pairwise strictly disjoint x-ranges (`pad_i.right <
pad_j.left` or `pad_j.right < pad_i.left`), widths in [80, 150], and lies
fully on-screen with `left ≥ 50` and `right ≤ WIDTH - 50`. -/
theorem pads_disjoint_bounds (rng : ℕ → ℕ) (t : List (ℚ × ℚ))
    (zones : List LandingZone)
    (h : generate_terrain_and_landing_zones rng = some (t, zones)) : padsOk zones := by
  obtain ⟨pts, s2, hpts, hrun, hgen, hsh, hpw, hb, hlen, hctr⟩ := generate_spec rng
  rw [h] at hgen
  have hz : zones = s2.zones := congrArg Prod.snd (Option.some.inj hgen)
  rw [hz]
  exact ⟨hpw, hb⟩

set_option maxRecDepth 1000000 in
/-- C6 witness: the pad-set invariant on the concrete run driven by the
all-zero rng stream (one pad at [50, 130]). -/
theorem pads_disjoint_bounds_witness :
    padsOk [(⟨50, 490, 80, 10, 2, "Pad"⟩ : LandingZone)] :=
  pads_disjoint_bounds rngZero
    ((List.range 61).map (fun i => (20 * (i : ℚ), 500)))
    [(⟨50, 490, 80, 10, 2, "Pad"⟩ : LandingZone)]
    (by decide)

/-- C8: for every random source, terrain-and-pad generation returns
normally (no raised exception, modelled by `none`): it yields a terrain
and between 0 and 3 pads via the 20-attempt-bounded placement loop, which
consumes at most 40 raw draws after the 61 terrain draws (2 per attempt,
at most 20 attempts). -/
theorem generation_total (rng : ℕ → ℕ) :
    ∃ (t : List (ℚ × ℚ)) (zones : List LandingZone) (s2 : GenState)
      (pts : List (ℚ × ℚ)),
      generate_terrain_and_landing_zones rng = some (t, zones) ∧
        zones.length ≤ 3 ∧
        genPoints rng = some pts ∧
        padLoop rng 20 ⟨smooth_terrain pts 3, [], [], 61⟩ = some s2 ∧
        t = s2.terrain ∧ zones = s2.zones ∧ s2.ctr ≤ 61 + 2 * 20 := by
  obtain ⟨pts, s2, hpts, hrun, hgen, hsh, hpw, hb, hlen, hctr⟩ := generate_spec rng
  exact ⟨s2.terrain, s2.zones, s2, pts, hgen, hlen, hpts, hrun, rfl, rfl, by omega⟩
